import Mathlib

/-!
Verification development for the fruit-sweetness (Brix) aggregation engine.

The model is a shallow embedding of the TypeScript source:

* JavaScript numbers are modelled as rationals (`ℚ`); the running totals,
  counts and averages of the aggregators are exact rational arithmetic.
* `parseFloat(x.toFixed(2))` is modelled by `toFixed2`, which implements the
  ECMAScript `toFixed` rounding rule on the exact value: choose the integer
  `n` minimising the distance of `n / 100` to the value, preferring the
  larger `n` on ties (round half towards positive infinity).
* Calendar dates (`new Date(year, month, day)` at local midnight) are modelled
  by the `Date` structure below together with a rata-die counter `Date.toRD`;
  comparisons of JavaScript `Date` timestamps and lexicographic comparisons of
  the `YYYY-MM-DD` strings both coincide with comparisons of `toRD` on valid
  calendar dates, which is how they are embedded.
* String-keyed JavaScript property bags (the per-farm `..._total` and
  `..._count` keys, per-farm point keys, per-year point keys) are modelled as
  functions from the key type to `Option` values; a key being absent on the
  object corresponds to the function returning `none` (for totals/counts the
  code treats an absent key as zero, so those are total functions to `0`).
* `Array.prototype.sort` is modelled by `List.insertionSort` (a stable
  comparison sort, like the one the runtime uses); the `localeCompare`
  comparator on labels is modelled by the lexicographic order on `String`.
-/

set_option maxRecDepth 10000

/-! ## Calendar dates -/

/-- A calendar date as produced by `new Date(year, month0, day)` in the local
time zone; `month` is 1-based here (the sources use 0-based `getMonth()` and
convert to 1-based `MM` when formatting). -/
structure Date where
  year : Nat
  month : Nat
  day : Nat
deriving DecidableEq, Repr

/-- Gregorian leap-year test. -/
def isLeapYear (y : Nat) : Bool :=
  (y % 4 == 0 && y % 100 != 0) || (y % 400 == 0)

/-- Number of days of month `m` (1-based) in year `y`. -/
def daysInMonth (y m : Nat) : Nat :=
  match m with
  | 1 => 31
  | 2 => if isLeapYear y then 29 else 28
  | 3 => 31
  | 4 => 30
  | 5 => 31
  | 6 => 30
  | 7 => 31
  | 8 => 31
  | 9 => 30
  | 10 => 31
  | 11 => 30
  | 12 => 31
  | _ => 0

/-- Cumulative day counts before each month in a common year. -/
def cumMonth : Nat → Nat
  | 1 => 0
  | 2 => 31
  | 3 => 59
  | 4 => 90
  | 5 => 120
  | 6 => 151
  | 7 => 181
  | 8 => 212
  | 9 => 243
  | 10 => 273
  | 11 => 304
  | 12 => 334
  | _ => 365

/-- Days of year `y` that lie strictly before month `m`. -/
def daysBeforeMonth (y m : Nat) : Nat :=
  cumMonth m + (if 3 ≤ m && isLeapYear y then 1 else 0)

/-- Number of days in year `y`. -/
def daysInYear (y : Nat) : Nat := if isLeapYear y then 366 else 365

/-- Number of leap years among `0, …, y - 1` (year 0 counts as a leap year). -/
def leapsBefore (y : Nat) : Nat := (y + 3) / 4 + (y + 399) / 400 - (y + 99) / 100

/-- Days lying in years `0, …, y - 1`. -/
def daysBeforeYear (y : Nat) : Nat := 365 * y + leapsBefore y

theorem isLeapYear_iff (y : Nat) :
    isLeapYear y = true ↔ ((y % 4 = 0 ∧ y % 100 ≠ 0) ∨ y % 400 = 0) := by
  simp [isLeapYear]

theorem daysBeforeYear_succ (y : Nat) :
    daysBeforeYear (y + 1) = daysBeforeYear y + daysInYear y := by
  unfold daysBeforeYear leapsBefore daysInYear
  by_cases hl : isLeapYear y = true
  · rw [if_pos hl]
    have := (isLeapYear_iff y).mp hl
    omega
  · rw [if_neg hl]
    rw [isLeapYear_iff] at hl
    push_neg at hl
    omega

/-- Rata-die style linear day index of a date; on valid dates it is ordered
and spaced exactly like the JavaScript `Date.getTime()` timestamp (one unit
per calendar day). -/
def Date.toRD (d : Date) : Nat :=
  daysBeforeYear d.year + daysBeforeMonth d.year d.month + d.day

/-- A structurally valid calendar date. -/
def Date.Valid (d : Date) : Prop :=
  1 ≤ d.month ∧ d.month ≤ 12 ∧ 1 ≤ d.day ∧ d.day ≤ daysInMonth d.year d.month

instance (d : Date) : Decidable d.Valid := by
  unfold Date.Valid; infer_instance

/-- The calendar day after `d`; models `currentDate.setDate(currentDate.getDate() + 1)`. -/
def Date.next (d : Date) : Date :=
  if d.day < daysInMonth d.year d.month then ⟨d.year, d.month, d.day + 1⟩
  else if d.month < 12 then ⟨d.year, d.month + 1, 1⟩
  else ⟨d.year + 1, 1, 1⟩

theorem daysBeforeMonth_succ (y : Nat) (m : Nat) (h1 : 1 ≤ m) (h2 : m ≤ 11) :
    daysBeforeMonth y (m + 1) = daysBeforeMonth y m + daysInMonth y m := by
  interval_cases m <;>
    cases h : isLeapYear y <;>
      simp [daysBeforeMonth, cumMonth, daysInMonth, h]

theorem daysBeforeMonth_twelve (y : Nat) :
    daysBeforeMonth y 12 + daysInMonth y 12 = daysInYear y := by
  cases h : isLeapYear y <;> simp [daysBeforeMonth, cumMonth, daysInMonth, daysInYear, h]

theorem one_le_daysInMonth (y : Nat) (m : Nat) (h1 : 1 ≤ m) (h2 : m ≤ 12) :
    1 ≤ daysInMonth y m := by
  interval_cases m <;> cases h : isLeapYear y <;> simp [daysInMonth, h]

theorem Date.toRD_next (d : Date) (hv : d.Valid) : d.next.toRD = d.toRD + 1 := by
  obtain ⟨hm1, hm2, hd1, hd2⟩ := hv
  unfold Date.next
  by_cases h : d.day < daysInMonth d.year d.month
  · simp only [h, if_true]
    show daysBeforeYear d.year + daysBeforeMonth d.year d.month + (d.day + 1)
        = daysBeforeYear d.year + daysBeforeMonth d.year d.month + d.day + 1
    omega
  · have hday : d.day = daysInMonth d.year d.month := le_antisymm hd2 (not_lt.mp h)
    simp only [h, if_false]
    by_cases h12 : d.month < 12
    · simp only [h12, if_true]
      have hsucc := daysBeforeMonth_succ d.year d.month hm1 (by omega)
      show daysBeforeYear d.year + daysBeforeMonth d.year (d.month + 1) + 1
          = daysBeforeYear d.year + daysBeforeMonth d.year d.month + d.day + 1
      omega
    · have hm : d.month = 12 := by omega
      simp only [h12, if_false]
      show daysBeforeYear (d.year + 1) + daysBeforeMonth (d.year + 1) 1 + 1
          = daysBeforeYear d.year + daysBeforeMonth d.year d.month + d.day + 1
      have h0 : daysBeforeMonth (d.year + 1) 1 = 0 := by
        simp [daysBeforeMonth, cumMonth]
      have h1 := daysBeforeYear_succ d.year
      have h2 := daysBeforeMonth_twelve d.year
      rw [hm] at hday ⊢
      omega

theorem Date.valid_next (d : Date) (hv : d.Valid) : d.next.Valid := by
  obtain ⟨hm1, hm2, hd1, hd2⟩ := hv
  unfold Date.next
  by_cases h : d.day < daysInMonth d.year d.month
  · simp only [h, if_true]
    show 1 ≤ d.month ∧ d.month ≤ 12 ∧ 1 ≤ d.day + 1 ∧ d.day + 1 ≤ daysInMonth d.year d.month
    exact ⟨hm1, hm2, by omega, h⟩
  · by_cases h12 : d.month < 12
    · simp only [h, if_false, h12, if_true]
      show 1 ≤ d.month + 1 ∧ d.month + 1 ≤ 12 ∧ 1 ≤ 1 ∧ 1 ≤ daysInMonth d.year (d.month + 1)
      exact ⟨by omega, by omega, le_refl 1,
        one_le_daysInMonth d.year (d.month + 1) (by omega) (by omega)⟩
    · simp only [h, if_false, h12]
      show 1 ≤ 1 ∧ 1 ≤ 12 ∧ 1 ≤ 1 ∧ 1 ≤ daysInMonth (d.year + 1) 1
      exact ⟨le_refl 1, by omega, le_refl 1, by simp [daysInMonth]⟩

theorem Date.valid_iterate_next (d : Date) (hv : d.Valid) (n : Nat) :
    (Date.next^[n] d).Valid := by
  induction n with
  | zero => simpa using hv
  | succ k ih =>
      rw [Function.iterate_succ_apply']
      exact Date.valid_next _ ih

theorem Date.toRD_iterate_next (d : Date) (hv : d.Valid) (n : Nat) :
    (Date.next^[n] d).toRD = d.toRD + n := by
  induction n with
  | zero => simp
  | succ k ih =>
      rw [Function.iterate_succ_apply', Date.toRD_next _ (Date.valid_iterate_next d hv k), ih]
      omega

/-- On valid dates in the same year, the rata-die index is at least that of
January 1st of that year. -/
theorem Date.toRD_jan1_le (d : Date) (hv : d.Valid) :
    Date.toRD ⟨d.year, 1, 1⟩ ≤ d.toRD := by
  obtain ⟨hm1, hm2, hd1, hd2⟩ := hv
  simp [Date.toRD, daysBeforeMonth, cumMonth]
  omega

/-! ## Lexicographic string order

Models the comparator `(a, b) => a.localeCompare(b)` used to sort category
labels, as the lexicographic order on the code points of the strings. -/

/-- Lexicographic comparison of code-point lists. -/
def lexLe : List Nat → List Nat → Bool
  | [], _ => true
  | _ :: _, [] => false
  | a :: as, b :: bs =>
    if a < b then true
    else if b < a then false
    else lexLe as bs

/-- Lexicographic order on strings via their code points. -/
def strLe (s t : String) : Prop :=
  lexLe (s.data.map Char.toNat) (t.data.map Char.toNat) = true

instance : DecidableRel strLe := fun _ _ => inferInstanceAs (Decidable (_ = true))

theorem lexLe_total : ∀ xs ys : List Nat, lexLe xs ys = true ∨ lexLe ys xs = true
  | [], _ => Or.inl rfl
  | _ :: _, [] => Or.inr rfl
  | x :: xs, y :: ys => by
      rcases Nat.lt_trichotomy x y with h | h | h
      · left; simp [lexLe, h]
      · subst h
        rcases lexLe_total xs ys with h2 | h2
        · left; simp [lexLe, h2]
        · right; simp [lexLe, h2]
      · right; simp [lexLe, h]

theorem lexLe_trans (xs : List Nat) : ∀ ys zs,
    lexLe xs ys = true → lexLe ys zs = true → lexLe xs zs = true := by
  induction xs with
  | nil => intro ys zs _ _; rfl
  | cons x xs ih =>
      intro ys zs h1 h2
      match ys, zs with
      | [], _ => simp [lexLe] at h1
      | _ :: _, [] => simp [lexLe] at h2
      | y :: ys, z :: zs =>
          simp only [lexLe] at h1 h2 ⊢
          split_ifs at h1 h2 ⊢ <;>
            first
              | rfl
              | omega
              | exact ih ys zs h1 h2

theorem strLe_total (s t : String) : strLe s t ∨ strLe t s := lexLe_total _ _

theorem strLe_trans {s t u : String} (h1 : strLe s t) (h2 : strLe t u) : strLe s u :=
  lexLe_trans _ _ _ h1 h2

/-! ## Measurement records

One `BrixData` value per CSV row that survived validation, matching the
`BrixData` interface of the sources; `BRIX` values are modelled as exact
rationals. -/

structure BrixData where
  FARMLAND : String
  MSSR_SN : String
  VARIETY : String
  TAG_NO : Int
  BRIX : ℚ
  MEASURE_DATE : Date
deriving DecidableEq, Repr

/-- Models `parseFloat(x.toFixed(2))` applied to the exact value `q`:
ECMAScript `toFixed` picks the integer `n` minimising the distance of
`n / 100` to the value, preferring the larger `n` on ties, which is
`⌊100 q + 1/2⌋ / 100`. -/
def toFixed2 (q : ℚ) : ℚ := (⌊q * 100 + 1/2⌋ : ℚ) / 100

/-! ## Cumulative Time-Series Builder (the time-series branch of
`processData` in `App.tsx`) -/

/-- The per-date entry of the `dailyAggregates` map: overall daily total and
count, plus the dynamic `` `${farm}_total` ``/`` `${farm}_count` `` keys for
selected farms, modelled as total functions that return `0` for an absent
key (the code reads absent keys with `|| 0` when accumulating and detects
presence via `farmCount > 0`). -/
structure DailyAgg where
  daily_total : ℚ
  daily_count : Nat
  farmTotal : String → ℚ
  farmCount : String → Nat

/-- Records of the filtered subset falling on calendar date `d`. -/
def recordsOn (records : List BrixData) (d : Date) : List BrixData :=
  records.filter (fun r => r.MEASURE_DATE == d)

/-- The `dailyAggregates` entry for date `d`, built from the filtered subset:
every record contributes to the overall total/count, and additionally to its
farm's total/count when its farm is among the selected `farmlands`. -/
def dailyAggOf (farmlands : List String) (records : List BrixData) (d : Date) : DailyAgg :=
  let todays := recordsOn records d
  { daily_total := (todays.map (·.BRIX)).sum
    daily_count := todays.length
    farmTotal := fun f =>
      if farmlands.contains f then ((todays.filter (fun r => r.FARMLAND == f)).map (·.BRIX)).sum
      else 0
    farmCount := fun f =>
      if farmlands.contains f then (todays.filter (fun r => r.FARMLAND == f)).length
      else 0 }

/-- Ordering of dates used to model both `Date` timestamp comparisons and the
default (lexicographic) sort of `YYYY-MM-DD` strings, which agree on valid
dates. -/
def dateLE (a b : Date) : Prop := a.toRD ≤ b.toRD

instance : DecidableRel dateLE := fun a b => inferInstanceAs (Decidable (_ ≤ _))

instance : IsTotal Date dateLE := ⟨fun a b => Nat.le_total a.toRD b.toRD⟩

instance : IsTrans Date dateLE := ⟨fun _ _ _ h1 h2 => Nat.le_trans h1 h2⟩

/-- The sorted distinct dates of the filtered subset
(`Array.from(dailyAggregates.keys()).sort()`). -/
def sortedDatesOf (records : List BrixData) : List Date :=
  List.insertionSort dateLE ((records.map (·.MEASURE_DATE)).dedup)

/-- The per-farm entry of the `farmCumulativeStats` map; an absent farm is
modelled by the zero entry the code would create on demand. -/
structure FarmStat where
  sum : ℚ
  count : Nat
deriving DecidableEq, Repr

/-- The mutable state of the single pass over the sorted dates: current year
(`''` initially, modelled as `none`), overall cumulative sum/count, and the
per-farm cumulative map. -/
structure CumState where
  currentYear : Option Nat
  cumulativeSum : ℚ
  cumulativeCount : Nat
  farmStats : String → FarmStat

/-- The state before the loop over the sorted dates. -/
def initCumState : CumState :=
  { currentYear := none
    cumulativeSum := 0
    cumulativeCount := 0
    farmStats := fun _ => ⟨0, 0⟩ }

/-- One value of `computedAveragesMap`: the optional rounded overall
cumulative average and the per-farm rounded cumulative averages present on
that date. -/
structure ComputedEntry where
  overall : Option ℚ
  farms : String → Option ℚ

/-- The body of the `for (const farm of farmlands)` loop on one date: if the
farm has data that day, fold the day's farm total/count into its cumulative
stats and emit the rounded cumulative average; otherwise leave both the
stats and the emissions untouched. -/
def farmFold (agg : DailyAgg) (acc : (String → FarmStat) × (String → Option ℚ))
    (farm : String) : (String → FarmStat) × (String → Option ℚ) :=
  if agg.farmCount farm > 0 then
    let stats := acc.1 farm
    let newStats : FarmStat :=
      ⟨stats.sum + agg.farmTotal farm, stats.count + agg.farmCount farm⟩
    (fun f => if f = farm then newStats else acc.1 f,
     fun f => if f = farm then some (toFixed2 (newStats.sum / (newStats.count : ℚ))) else acc.2 f)
  else acc

/-- Processing of a single sorted date: reset all cumulative trackers when
the year differs from the previously processed date's year, fold in the
day's overall totals, then run the farm loop. Returns the next state and the
computed entry for the date. -/
def stepDate (farmlands : List String) (aggOf : Date → DailyAgg) (st : CumState)
    (d : Date) : CumState × ComputedEntry :=
  let st' := if st.currentYear ≠ some d.year then
      { initCumState with currentYear := some d.year } else st
  let agg := aggOf d
  let s := if agg.daily_count > 0 then st'.cumulativeSum + agg.daily_total else st'.cumulativeSum
  let c := if agg.daily_count > 0 then st'.cumulativeCount + agg.daily_count else st'.cumulativeCount
  let overall : Option ℚ := if c > 0 then some (toFixed2 (s / (c : ℚ))) else none
  let fr := farmlands.foldl (farmFold agg) (st'.farmStats, fun _ => none)
  (⟨some d.year, s, c, fr.1⟩, ⟨overall, fr.2⟩)

/-- The walk over the sorted dates, collecting each date's computed entry. -/
def walk (farmlands : List String) (aggOf : Date → DailyAgg) :
    CumState → List Date → List (Date × ComputedEntry)
  | _, [] => []
  | st, d :: ds =>
      let r := stepDate farmlands aggOf st d
      (d, r.2) :: walk farmlands aggOf r.1 ds

/-- The guard under which an entry is stored into `computedAveragesMap`
(`computedEntry.overall !== undefined || Object.keys(computedEntry.farms).length > 0`). -/
def entryHasData (farmlands : List String) (e : ComputedEntry) : Bool :=
  e.overall.isSome || farmlands.any (fun f => (e.farms f).isSome)

/-- Lookup in `computedAveragesMap`. -/
def computedMapOf (farmlands : List String) (records : List BrixData) :
    Date → Option ComputedEntry := fun d =>
  ((walk farmlands (dailyAggOf farmlands records) initCumState (sortedDatesOf records)).find?
      (fun p => p.1 == d)).bind
    (fun p => if entryHasData farmlands p.2 then some p.2 else none)

/-! ## Window fill and gap handling -/

/-- The carry-forward threshold for the overall series (`const MAX_GAP_DAYS = 0`). -/
def MAX_GAP_DAYS : Nat := 0

/-- One point of the time-series output. The `date` field is the point's axis
key; `overall` models the optional cross-farm average key and `farms` the
optional per-farm keys. -/
structure ChartPoint where
  date : Date
  overall : Option ℚ
  farms : String → Option ℚ

/-- The mutable state of the window loop: last known overall value, the date
it was computed on, and the year tracker (`''` initially, modelled `none`). -/
structure GapState where
  lastKnownOverall : Option ℚ
  lastDateOverall : Option Date
  lastKnownYear : Option Nat

/-- One step of the backward seed scan: accept date `d` when it lies strictly
before the window start, in the window start's calendar year, and has a
computed overall value. -/
def seedCheck (computedMap : Date → Option ComputedEntry) (startD : Date)
    (d : Date) : Option (ℚ × Date) :=
  if d.toRD < startD.toRD ∧ d.year = startD.year then
    match (computedMap d).bind (·.overall) with
    | some v => some (v, d)
    | none => none
  else none

/-- First hit of a check function along a list. -/
def seedGo (f : Date → Option (ℚ × Date)) : List Date → Option (ℚ × Date)
  | [] => none
  | d :: ds =>
      match f d with
      | some v => some v
      | none => seedGo f ds

/-- The backward scan over the sorted dates (`for (let i = sortedDates.length - 1; …)`)
that seeds the carry-forward state before the window loop. -/
def seedScan (computedMap : Date → Option ComputedEntry) (startD : Date)
    (dates : List Date) : Option (ℚ × Date) :=
  seedGo (seedCheck computedMap startD) dates.reverse

/-- The gap state entering the window loop, from the seed scan's result. -/
def initGapState (seed : Option (ℚ × Date)) (startD : Date) : GapState :=
  match seed with
  | some (v, d) => ⟨some v, some d, some startD.year⟩
  | none => ⟨none, none, none⟩

/-- The dense inclusive day range of the output window
(`for (let currentDate = new Date(start); currentDate <= end; …)`). -/
def windowDays (s e : Date) : List Date :=
  if s.toRD ≤ e.toRD then (List.range (e.toRD - s.toRD + 1)).map (fun i => Date.next^[i] s)
  else []

/-- The body of the window loop on day `cur`: reset the carry-forward state
on a year change; emit the computed overall value if present (updating the
carry-forward state), otherwise re-emit the last known value only when the
day gap is within `MAX_GAP_DAYS`; per-farm keys are emitted exactly when the
farm has a computed cumulative value that day. -/
def gapStep (farmlands : List String) (computedMap : Date → Option ComputedEntry)
    (gs : GapState) (cur : Date) : GapState × ChartPoint :=
  let gs' := if gs.lastKnownYear ≠ some cur.year then
      (⟨none, none, some cur.year⟩ : GapState) else gs
  let farmsOf : String → Option ℚ := fun f =>
    if farmlands.contains f then (computedMap cur).bind (fun e => e.farms f) else none
  let co := (computedMap cur).bind (·.overall)
  let overallVal : Option ℚ :=
    match co, gs'.lastKnownOverall, gs'.lastDateOverall with
    | some v, _, _ => some v
    | none, some lv, some ld =>
        if max cur.toRD ld.toRD - min cur.toRD ld.toRD ≤ MAX_GAP_DAYS then some lv else none
    | none, _, _ => none
  let nextGs : GapState :=
    match co with
    | some v => ⟨some v, some cur, gs'.lastKnownYear⟩
    | none => gs'
  (nextGs, ⟨cur, overallVal, farmsOf⟩)

/-- The window loop, emitting one `ChartPoint` per day. -/
def windowLoopGo (farmlands : List String) (computedMap : Date → Option ComputedEntry) :
    GapState → List Date → List ChartPoint
  | _, [] => []
  | gs, d :: ds =>
      let r := gapStep farmlands computedMap gs d
      r.2 :: windowLoopGo farmlands computedMap r.1 ds

/-- The Cumulative Time-Series Builder: the full time-series branch of
`processData`, from the filtered subset and the selected farms to
`finalTimeSeriesData`. The filtered subset is the record list after the
variety filter (the date window is deliberately not applied to it). -/
def processTimeSeries (farmlands : List String) (records : List BrixData)
    (startD endD : Date) : List ChartPoint :=
  if startD.toRD ≤ endD.toRD then
    windowLoopGo farmlands (computedMapOf farmlands records)
      (initGapState (seedScan (computedMapOf farmlands records) startD (sortedDatesOf records))
        startD)
      (windowDays startD endD)
  else []

/-! ## Category Aggregator (the categorical branch of `processData`) -/

/-- One categorical point: the axis key is the variety label; `overall`
models the cross-farm average key and `farms` the per-farm keys. -/
structure CatPoint where
  variety : String
  overall : Option ℚ
  farms : String → Option ℚ

/-- The distinct varieties of the filtered subset (the keys of `dataByVariety`). -/
def varietiesOf (records : List BrixData) : List String :=
  (records.map (·.VARIETY)).dedup

/-- The point built from one variety bucket: rounded overall average when the
bucket is nonempty, and rounded per-farm averages for selected farms with
data in the bucket. -/
def catPointOf (farmlands : List String) (records : List BrixData) (v : String) : CatPoint :=
  let bucket := records.filter (fun r => r.VARIETY == v)
  { variety := v
    overall :=
      if bucket.length > 0 then
        some (toFixed2 ((bucket.map (·.BRIX)).sum / (bucket.length : ℚ)))
      else none
    farms := fun f =>
      if farmlands.contains f then
        let fb := bucket.filter (fun r => r.FARMLAND == f)
        if fb.length > 0 then some (toFixed2 ((fb.map (·.BRIX)).sum / (fb.length : ℚ)))
        else none
      else none }

/-- The emission filter `Object.keys(p).length > 1`: besides the axis key at
least one series key is present. -/
def catPointHasData (farmlands : List String) (p : CatPoint) : Bool :=
  p.overall.isSome || farmlands.any (fun f => (p.farms f).isSome)

/-- The sort comparator `(a, b) => a.variety.localeCompare(b.variety)`. -/
def catLE (a b : CatPoint) : Prop := strLe a.variety b.variety

instance : DecidableRel catLE := fun a b => inferInstanceAs (Decidable (strLe _ _))

instance : IsTotal CatPoint catLE := ⟨fun a b => strLe_total a.variety b.variety⟩

instance : IsTrans CatPoint catLE := ⟨fun _ _ _ h1 h2 => strLe_trans h1 h2⟩

/-- The Category Aggregator: the categorical branch of `processData`, from
the filtered subset and the selected farms to `finalChartData`. -/
def catChart (farmlands : List String) (records : List BrixData) : List CatPoint :=
  List.insertionSort catLE
    (((varietiesOf records).map (catPointOf farmlands records)).filter
      (catPointHasData farmlands))

/-! ## Tag Heatmap Aggregator (`tagData` in `FarmAnalysis`) -/

/-- One heatmap cell: tag number and rounded average sweetness. -/
structure TagPoint where
  tag : Int
  avg : ℚ
deriving DecidableEq, Repr

/-- The distinct non-zero tags of the filtered, date-windowed subset (the
keys of `tagMap`; records with `TAG_NO === 0` never create or join a bucket). -/
def tagsOf (records : List BrixData) : List Int :=
  ((records.filter (fun r => r.TAG_NO != 0)).map (·.TAG_NO)).dedup

/-- The sort comparator `(a, b) => a.tag - b.tag`. -/
def tagLE (a b : TagPoint) : Prop := a.tag ≤ b.tag

instance : DecidableRel tagLE := fun a b => inferInstanceAs (Decidable (_ ≤ _))

instance : IsTotal TagPoint tagLE := ⟨fun a b => Int.le_total a.tag b.tag⟩

instance : IsTrans TagPoint tagLE := ⟨fun _ _ _ h1 h2 => Int.le_trans h1 h2⟩

/-- The Tag Heatmap Aggregator: one point per distinct non-zero tag with the
rounded plain average of the tag's sweetness values, sorted ascending by tag. -/
def tagData (records : List BrixData) : List TagPoint :=
  List.insertionSort tagLE ((tagsOf records).map (fun t =>
    let sel := records.filter (fun r => r.TAG_NO == t)
    ⟨t, toFixed2 ((sel.map (·.BRIX)).sum / (sel.length : ℚ))⟩))

/-! ## Day-of-Year Normalizer (`YearlyTrendAnalysis`) -/

/-- Two-digit zero padding (`padStart(2, '0')`). -/
def pad2 (n : Nat) : String := if n < 10 then "0" ++ toString n else toString n

/-- One point of the normalized multi-year chart: month-day label, the fixed
reference-year (2024) timestamp used for ordering, and one optional value per
year. -/
structure TrendPoint where
  name : String
  sortValue : Nat
  years : Nat → Option ℚ

/-- The distinct month-day pairs of the variety-filtered subset (the keys of
`normalizedDataMap`). -/
def monthDaysOf (rs : List BrixData) : List (Nat × Nat) :=
  (rs.map (fun r => (r.MEASURE_DATE.month, r.MEASURE_DATE.day))).dedup

/-- The normalized point for one month-day: the label `MM-DD`, the leap
reference-year timestamp `new Date(2024, m0, d).getTime()`, and for each year
the rounded plain daily average of that year's records on that month-day
(absent when the year has no data that day). -/
def trendPointOf (rs : List BrixData) (md : Nat × Nat) : TrendPoint :=
  { name := pad2 md.1 ++ "-" ++ pad2 md.2
    sortValue := Date.toRD ⟨2024, md.1, md.2⟩
    years := fun y =>
      let sel := rs.filter (fun r =>
        r.MEASURE_DATE.year == y && r.MEASURE_DATE.month == md.1 && r.MEASURE_DATE.day == md.2)
      if sel.length > 0 then some (toFixed2 ((sel.map (·.BRIX)).sum / (sel.length : ℚ)))
      else none }

/-- The sort comparator `(a, b) => a.sortValue - b.sortValue`. -/
def trendLE (a b : TrendPoint) : Prop := a.sortValue ≤ b.sortValue

instance : DecidableRel trendLE := fun a b => inferInstanceAs (Decidable (_ ≤ _))

instance : IsTotal TrendPoint trendLE := ⟨fun a b => Nat.le_total a.sortValue b.sortValue⟩

instance : IsTrans TrendPoint trendLE := ⟨fun _ _ _ h1 h2 => Nat.le_trans h1 h2⟩

/-- The Day-of-Year Normalizer: filter to one variety, aggregate per year and
exact month-day, re-key onto the year-agnostic `MM-DD` label, and sort by
the reference-year timestamp. -/
def trendChart (data : List BrixData) (variety : String) : List TrendPoint :=
  let filtered := data.filter (fun r => r.VARIETY == variety)
  List.insertionSort trendLE ((monthDaysOf filtered).map (trendPointOf filtered))

/-- The per-year plain mean summary (`yearlyAverages` in `YearlyTrendAnalysis`). -/
def yearlyAvgOf (data : List BrixData) (variety : String) (y : Nat) : Option ℚ :=
  let sel := (data.filter (fun r => r.VARIETY == variety)).filter
    (fun r => r.MEASURE_DATE.year == y)
  if sel.length > 0 then some (toFixed2 ((sel.map (·.BRIX)).sum / (sel.length : ℚ)))
  else none

/-! ## Row validation in `handleFileParsed` -/

/-- A JavaScript number as classified by the validation code: NaN, an
infinity, or a finite value. -/
inductive JSNum where
  | nan : JSNum
  | posInf : JSNum
  | negInf : JSNum
  | fin : ℚ → JSNum
deriving DecidableEq, Repr

/-- The `isNaN` predicate. -/
def JSNum.isNaN : JSNum → Bool
  | .nan => true
  | _ => false

/-- Finiteness of a JavaScript number. -/
def JSNum.isFinite : JSNum → Bool
  | .fin _ => true
  | _ => false

/-- One CSV row after field extraction: `fieldsPresent` is the truthiness of
the four checked raw fields, `measureDate` the result of
`parseDateAsLocal(row.MEASURE_DATE)`, and `brix` the result of
`parseFloat(row.BRIX)` (for example `parseFloat("Infinity")` is `posInf` and
`parseFloat("abc")` is `nan`). -/
structure ParsedRow where
  fieldsPresent : Bool
  measureDate : Option Date
  brix : JSNum
  FARMLAND : String
  VARIETY : String
  TAG_NO : Int
deriving DecidableEq, Repr

/-- The row filter of `handleFileParsed`: a row is kept when the required
fields are truthy, the date parses, and the parsed sweetness is not NaN
(`if (!measureDate || isNaN(brix)) return null`). -/
def rowKept (r : ParsedRow) : Bool :=
  r.fieldsPresent && r.measureDate.isSome && !(r.brix.isNaN)

/-- The rows that survive validation and enter the Record Store. -/
def formattedRows (rows : List ParsedRow) : List ParsedRow :=
  rows.filter rowKept

/-! ## Properties of the farm loop -/

theorem foldl_farmFold_snd_isSome (agg : DailyAgg) (fl : List String)
    (acc : (String → FarmStat) × (String → Option ℚ)) (f : String) :
    ((fl.foldl (farmFold agg) acc).2 f).isSome
      ↔ ((acc.2 f).isSome ∨ (f ∈ fl ∧ 0 < agg.farmCount f)) := by
  induction fl generalizing acc with
  | nil => simp
  | cons farm rest ih =>
      rw [List.foldl_cons, ih]
      unfold farmFold
      by_cases hc : 0 < agg.farmCount farm
      · simp only [hc, if_true]
        by_cases hf : f = farm
        · subst hf
          simp [hc]
        · simp only [hf, if_false, List.mem_cons]
          tauto
      · simp only [hc, if_false, List.mem_cons]
        constructor
        · rintro (h | ⟨h1, h2⟩)
          · exact Or.inl h
          · exact Or.inr ⟨Or.inr h1, h2⟩
        · rintro (h | ⟨h1 | h1, h2⟩)
          · exact Or.inl h
          · subst h1; omega
          · exact Or.inr ⟨h1, h2⟩

theorem foldl_farmFold_fst_of_count_zero (agg : DailyAgg) (fl : List String)
    (acc : (String → FarmStat) × (String → Option ℚ)) (f : String)
    (h : agg.farmCount f = 0) :
    (fl.foldl (farmFold agg) acc).1 f = acc.1 f := by
  induction fl generalizing acc with
  | nil => rfl
  | cons farm rest ih =>
      rw [List.foldl_cons, ih]
      unfold farmFold
      by_cases hc : 0 < agg.farmCount farm
      · simp only [hc, if_true]
        by_cases hf : f = farm
        · subst hf; omega
        · simp [hf]
      · simp [hc]

theorem foldl_farmFold_snd_of_not_mem (agg : DailyAgg) (fl : List String)
    (acc : (String → FarmStat) × (String → Option ℚ)) (f : String) (h : f ∉ fl) :
    (fl.foldl (farmFold agg) acc).2 f = acc.2 f := by
  induction fl generalizing acc with
  | nil => rfl
  | cons farm rest ih =>
      rw [List.foldl_cons, ih _ (fun hm => h (List.mem_cons_of_mem _ hm))]
      unfold farmFold
      have hf : f ≠ farm := fun he => h (he ▸ List.mem_cons_self _ _)
      by_cases hc : 0 < agg.farmCount farm
      · simp [hc, hf]
      · simp [hc]

/-- The value emitted by the farm loop for a farm with data: the rounded
quotient of the full-precision cumulative sum and count. -/
theorem farmFold_emit_value (agg : DailyAgg)
    (acc : (String → FarmStat) × (String → Option ℚ)) (farm : String)
    (hc : 0 < agg.farmCount farm) :
    (farmFold agg acc farm).2 farm
      = some (toFixed2 (((acc.1 farm).sum + agg.farmTotal farm)
          / (((acc.1 farm).count + agg.farmCount farm : Nat) : ℚ))) := by
  unfold farmFold
  simp [hc]

/-! ## Properties of one step of the cumulative walk -/

/-- A year change makes the step behave exactly as from the pristine state:
every cumulative tracker is reset before the day's totals are folded in. -/
theorem stepDate_reset (fl : List String) (aggOf : Date → DailyAgg) (st : CumState)
    (d : Date) (h : st.currentYear ≠ some d.year) :
    stepDate fl aggOf st d = stepDate fl aggOf initCumState d := by
  unfold stepDate
  rw [if_pos h, if_pos (by simp [initCumState])]

theorem stepDate_overall_isSome (fl : List String) (aggOf : Date → DailyAgg)
    (st : CumState) (d : Date) (h : 0 < (aggOf d).daily_count) :
    ((stepDate fl aggOf st d).2.overall).isSome := by
  unfold stepDate
  simp only [h, if_true]
  rw [if_pos (by omega)]
  rfl

theorem stepDate_farms_isSome (fl : List String) (aggOf : Date → DailyAgg)
    (st : CumState) (d : Date) (f : String) :
    ((stepDate fl aggOf st d).2.farms f).isSome ↔ (f ∈ fl ∧ 0 < (aggOf d).farmCount f) := by
  show ((fl.foldl (farmFold (aggOf d)) (_, fun _ => none)).2 f).isSome ↔ _
  rw [foldl_farmFold_snd_isSome]
  simp

/-- On a date in the same year, a farm with no data that day keeps its
cumulative tracker untouched. -/
theorem stepDate_farmStats_preserved (fl : List String) (aggOf : Date → DailyAgg)
    (st : CumState) (d : Date) (f : String)
    (hy : st.currentYear = some d.year) (hc : (aggOf d).farmCount f = 0) :
    (stepDate fl aggOf st d).1.farmStats f = st.farmStats f := by
  unfold stepDate
  rw [if_neg (by simp [hy])]
  exact foldl_farmFold_fst_of_count_zero _ _ _ _ hc

/-- On a date in the same year with data, the overall cumulative trackers
accumulate the exact daily totals at full precision, and the emitted overall
value is the rounded quotient of those exact trackers. -/
theorem stepDate_full_precision (fl : List String) (aggOf : Date → DailyAgg)
    (st : CumState) (d : Date)
    (hy : st.currentYear = some d.year) (hc : 0 < (aggOf d).daily_count) :
    (stepDate fl aggOf st d).1.cumulativeSum = st.cumulativeSum + (aggOf d).daily_total ∧
    (stepDate fl aggOf st d).1.cumulativeCount = st.cumulativeCount + (aggOf d).daily_count ∧
    (stepDate fl aggOf st d).2.overall
      = some (toFixed2 ((st.cumulativeSum + (aggOf d).daily_total)
          / ((st.cumulativeCount + (aggOf d).daily_count : Nat) : ℚ))) := by
  unfold stepDate
  rw [if_neg (by simp [hy])]
  refine ⟨by simp [hc], by simp [hc], ?_⟩
  simp only [hc, if_true]
  rw [if_pos (by omega)]

/-! ## Properties of the walk over the sorted dates -/

theorem walk_map_fst (fl : List String) (aggOf : Date → DailyAgg) (st : CumState)
    (ds : List Date) : (walk fl aggOf st ds).map (·.1) = ds := by
  induction ds generalizing st with
  | nil => rfl
  | cons d rest ih => simp [walk, ih]

theorem walk_find (fl : List String) (aggOf : Date → DailyAgg) (st : CumState)
    (ds : List Date) (d : Date) (hd : d ∈ ds) :
    ∃ st', (walk fl aggOf st ds).find? (fun p => p.1 == d)
      = some (d, (stepDate fl aggOf st' d).2) := by
  induction ds generalizing st with
  | nil => cases hd
  | cons d0 rest ih =>
      by_cases h : d0 = d
      · subst h
        exact ⟨st, by simp [walk, List.find?]⟩
      · have h2 : d ∈ rest := by
          rcases List.mem_cons.mp hd with h1 | h1
          · exact absurd h1.symm h
          · exact h1
        obtain ⟨st', hst'⟩ := ih (stepDate fl aggOf st d0).1 h2
        refine ⟨st', ?_⟩
        rw [show walk fl aggOf st (d0 :: rest)
          = (d0, (stepDate fl aggOf st d0).2) :: walk fl aggOf (stepDate fl aggOf st d0).1 rest
          from rfl]
        rw [List.find?_cons_of_neg _ (by simp [h]), hst']

theorem walk_find_none (fl : List String) (aggOf : Date → DailyAgg) (st : CumState)
    (ds : List Date) (d : Date) (hd : d ∉ ds) :
    (walk fl aggOf st ds).find? (fun p => p.1 == d) = none := by
  rw [List.find?_eq_none]
  intro x hx
  have hx1 : x.1 ∈ ds := by
    rw [← walk_map_fst fl aggOf st ds]
    exact List.mem_map_of_mem _ hx
  simp only [beq_iff_eq]
  intro he
  exact hd (he ▸ hx1)

/-! ## Properties of the daily aggregates and the computed map -/

theorem mem_sortedDatesOf (records : List BrixData) (d : Date) :
    d ∈ sortedDatesOf records ↔ ∃ r ∈ records, r.MEASURE_DATE = d := by
  unfold sortedDatesOf
  rw [(List.perm_insertionSort dateLE _).mem_iff, List.mem_dedup, List.mem_map]

theorem sortedDatesOf_sorted (records : List BrixData) :
    (sortedDatesOf records).Sorted dateLE :=
  List.sorted_insertionSort dateLE _

theorem sortedDatesOf_nodup (records : List BrixData) :
    (sortedDatesOf records).Nodup :=
  ((List.perm_insertionSort dateLE _).nodup_iff).mpr (List.nodup_dedup _)

theorem daily_count_pos_iff (fl : List String) (records : List BrixData) (d : Date) :
    0 < (dailyAggOf fl records d).daily_count ↔ ∃ r ∈ records, r.MEASURE_DATE = d := by
  show 0 < (recordsOn records d).length ↔ _
  rw [List.length_pos_iff_exists_mem]
  unfold recordsOn
  constructor
  · rintro ⟨r, hr⟩
    have := List.mem_filter.mp hr
    exact ⟨r, this.1, by simpa using this.2⟩
  · rintro ⟨r, hr, he⟩
    exact ⟨r, List.mem_filter.mpr ⟨hr, by simpa using he⟩⟩

theorem farmCount_pos_iff (fl : List String) (records : List BrixData) (d : Date)
    (f : String) :
    0 < (dailyAggOf fl records d).farmCount f
      ↔ (f ∈ fl ∧ ∃ r ∈ records, r.FARMLAND = f ∧ r.MEASURE_DATE = d) := by
  show 0 < (if fl.contains f then ((recordsOn records d).filter (fun r => r.FARMLAND == f)).length else 0) ↔ _
  by_cases hf : fl.contains f
  · rw [if_pos hf, List.length_pos_iff_exists_mem]
    constructor
    · rintro ⟨r, hr⟩
      have h1 := List.mem_filter.mp hr
      have h2 := List.mem_filter.mp h1.1
      exact ⟨by simpa using hf, r, h2.1, by simpa using h1.2, by simpa using h2.2⟩
    · rintro ⟨_, r, hr, hfarm, hdate⟩
      exact ⟨r, List.mem_filter.mpr
        ⟨List.mem_filter.mpr ⟨hr, by simpa using hdate⟩, by simpa using hfarm⟩⟩
  · rw [if_neg hf]
    simp only [lt_irrefl, false_iff, not_and]
    intro hmem
    exact absurd (by simpa using hmem : fl.contains f = true) hf

theorem computedMapOf_not_mem (fl : List String) (records : List BrixData) (d : Date)
    (hd : d ∉ sortedDatesOf records) : computedMapOf fl records d = none := by
  unfold computedMapOf
  rw [walk_find_none _ _ _ _ _ hd]
  rfl

theorem computedMapOf_of_mem (fl : List String) (records : List BrixData) (d : Date)
    (hd : d ∈ sortedDatesOf records) :
    ∃ st', computedMapOf fl records d
      = some ((stepDate fl (dailyAggOf fl records) st' d).2) := by
  obtain ⟨st', h⟩ := walk_find fl (dailyAggOf fl records) initCumState (sortedDatesOf records) d hd
  refine ⟨st', ?_⟩
  unfold computedMapOf
  rw [h]
  have hcount : 0 < (dailyAggOf fl records d).daily_count :=
    (daily_count_pos_iff fl records d).mpr ((mem_sortedDatesOf records d).mp hd)
  have hov := stepDate_overall_isSome fl (dailyAggOf fl records) st' d hcount
  show (if entryHasData fl (stepDate fl (dailyAggOf fl records) st' d).2 then _ else _) = _
  rw [if_pos (by unfold entryHasData; rw [hov]; rfl)]

/-- Presence of a cumulative farm value on a date, characterised by the farm
having a measurement on exactly that date. -/
theorem computedMapOf_farms_isSome (fl : List String) (records : List BrixData)
    (d : Date) (f : String) :
    (((computedMapOf fl records d).bind (fun e => e.farms f)).isSome)
      ↔ (f ∈ fl ∧ ∃ r ∈ records, r.FARMLAND = f ∧ r.MEASURE_DATE = d) := by
  constructor
  · intro h
    by_cases hd : d ∈ sortedDatesOf records
    · obtain ⟨st', hst'⟩ := computedMapOf_of_mem fl records d hd
      rw [hst'] at h
      rw [Option.some_bind] at h
      have := (stepDate_farms_isSome fl (dailyAggOf fl records) st' d f).mp h
      exact ⟨this.1, ((farmCount_pos_iff fl records d f).mp this.2).2⟩
    · rw [computedMapOf_not_mem fl records d hd] at h
      simp at h
  · rintro ⟨hf, r, hr, hfarm, hdate⟩
    have hd : d ∈ sortedDatesOf records :=
      (mem_sortedDatesOf records d).mpr ⟨r, hr, hdate⟩
    obtain ⟨st', hst'⟩ := computedMapOf_of_mem fl records d hd
    rw [hst']
    rw [Option.some_bind]
    exact (stepDate_farms_isSome fl (dailyAggOf fl records) st' d f).mpr
      ⟨hf, (farmCount_pos_iff fl records d f).mpr ⟨hf, r, hr, hfarm, hdate⟩⟩

/-! ## Properties of the window loop -/

theorem gapStep_snd_date (fl : List String) (cm : Date → Option ComputedEntry)
    (gs : GapState) (d : Date) : ((gapStep fl cm gs d).2).date = d := rfl

theorem gapStep_snd_farms (fl : List String) (cm : Date → Option ComputedEntry)
    (gs : GapState) (d : Date) (f : String) :
    ((gapStep fl cm gs d).2).farms f
      = if fl.contains f then (cm d).bind (fun e => e.farms f) else none := rfl

theorem windowLoopGo_map_date (fl : List String) (cm : Date → Option ComputedEntry)
    (gs : GapState) (ds : List Date) :
    (windowLoopGo fl cm gs ds).map (·.date) = ds := by
  induction ds generalizing gs with
  | nil => rfl
  | cons d rest ih => simp [windowLoopGo, gapStep_snd_date, ih]

theorem mem_windowLoopGo (fl : List String) (cm : Date → Option ComputedEntry)
    (gs : GapState) (ds : List Date) (p : ChartPoint)
    (hp : p ∈ windowLoopGo fl cm gs ds) :
    p.date ∈ ds ∧ ∀ f, p.farms f
      = if fl.contains f then (cm p.date).bind (fun e => e.farms f) else none := by
  induction ds generalizing gs with
  | nil => cases hp
  | cons d rest ih =>
      rcases List.mem_cons.mp hp with h1 | h2
      · subst h1
        exact ⟨List.mem_cons_self _ _, fun f => gapStep_snd_farms fl cm gs d f⟩
      · obtain ⟨hmem, hfarm⟩ := ih (gapStep fl cm gs d).1 h2
        exact ⟨List.mem_cons_of_mem _ hmem, hfarm⟩

/-! ## Properties of the backward seed scan -/

theorem seedGo_eq_none (f : Date → Option (ℚ × Date)) (l : List Date)
    (h : ∀ d ∈ l, f d = none) : seedGo f l = none := by
  induction l with
  | nil => rfl
  | cons d rest ih =>
      show (match f d with | some v => some v | none => seedGo f rest) = none
      rw [h d (List.mem_cons_self _ _)]
      exact ih (fun d' hd' => h d' (List.mem_cons_of_mem _ hd'))

theorem seedCheck_eq_some (cm : Date → Option ComputedEntry) (s d : Date)
    (v : ℚ) (d' : Date) (h : seedCheck cm s d = some (v, d')) :
    d' = d ∧ d.toRD < s.toRD ∧ d.year = s.year ∧ (cm d).bind (·.overall) = some v := by
  unfold seedCheck at h
  by_cases hc : d.toRD < s.toRD ∧ d.year = s.year
  · rw [if_pos hc] at h
    rcases ho : (cm d).bind (·.overall) with _ | v0
    · rw [ho] at h; cases h
    · rw [ho] at h
      cases h
      exact ⟨rfl, hc.1, hc.2, rfl⟩
  · rw [if_neg hc] at h
    cases h

theorem seedCheck_ne_none (cm : Date → Option ComputedEntry) (s d : Date)
    (h1 : d.toRD < s.toRD) (h2 : d.year = s.year)
    (h3 : ((cm d).bind (·.overall)).isSome) : seedCheck cm s d ≠ none := by
  unfold seedCheck
  rw [if_pos ⟨h1, h2⟩]
  rcases ho : (cm d).bind (·.overall) with _ | v0
  · rw [ho] at h3; cases h3
  · simp

/-- Along a list whose rata-die indices are non-increasing, the first hit of
the seed check is also the latest qualifying date. -/
theorem seedGo_seedCheck_spec (cm : Date → Option ComputedEntry) (s : Date)
    (l : List Date) (hl : l.Pairwise (fun a b => b.toRD ≤ a.toRD))
    (v : ℚ) (d : Date) (h : seedGo (seedCheck cm s) l = some (v, d)) :
    d ∈ l ∧ d.toRD < s.toRD ∧ d.year = s.year ∧ (cm d).bind (·.overall) = some v ∧
      ∀ d' ∈ l, d'.toRD < s.toRD → d'.year = s.year →
        ((cm d').bind (·.overall)).isSome → d'.toRD ≤ d.toRD := by
  induction l with
  | nil => cases h
  | cons d0 rest ih =>
      rw [show seedGo (seedCheck cm s) (d0 :: rest)
        = (match seedCheck cm s d0 with
           | some v0 => some v0
           | none => seedGo (seedCheck cm s) rest) from rfl] at h
      rcases hc : seedCheck cm s d0 with _ | v0
      · rw [hc] at h
        obtain ⟨hm, hlt, hy, ho, hmax⟩ := ih (List.Pairwise.of_cons hl) h
        refine ⟨List.mem_cons_of_mem _ hm, hlt, hy, ho, ?_⟩
        intro d' hd' h1 h2 h3
        rcases List.mem_cons.mp hd' with he | hr
        · subst he
          exact absurd hc (seedCheck_ne_none cm s d' h1 h2 h3)
        · exact hmax d' hr h1 h2 h3
      · rw [hc] at h
        cases h
        obtain ⟨he, hlt, hy, ho⟩ := seedCheck_eq_some cm s d0 v d hc
        subst he
        refine ⟨List.mem_cons_self _ _, hlt, hy, ho, ?_⟩
        intro d' hd' h1 h2 h3
        rcases List.mem_cons.mp hd' with he2 | hr
        · subst he2; exact le_refl _
        · exact (List.pairwise_cons.mp hl).1 d' hr

/-- Under validity of the involved dates, no date of the same calendar year
lies strictly before January 1st, so a window starting on January 1st gets
no seed. -/
theorem seedScan_jan1_none (cm : Date → Option ComputedEntry) (s : Date)
    (dates : List Date) (hs1 : s.month = 1) (hs2 : s.day = 1)
    (hv : ∀ d ∈ dates, d.Valid) :
    seedScan cm s dates = none := by
  apply seedGo_eq_none
  intro d hd
  have hdv : d.Valid := hv d (List.mem_reverse.mp hd)
  unfold seedCheck
  rw [if_neg]
  rintro ⟨hlt, hy⟩
  have hj := Date.toRD_jan1_le d hdv
  have hse : s = ⟨s.year, 1, 1⟩ := by
    cases s
    simp_all
  have : s.toRD = Date.toRD ⟨d.year, 1, 1⟩ := by
    rw [hse, hy]
  omega

/-! ## Properties of the Category Aggregator -/

theorem mem_varietiesOf (records : List BrixData) (v : String) :
    v ∈ varietiesOf records ↔ v ∈ records.map (·.VARIETY) :=
  List.mem_dedup

theorem varietiesOf_nodup (records : List BrixData) : (varietiesOf records).Nodup :=
  List.nodup_dedup _

theorem bucket_length_pos (records : List BrixData) (v : String)
    (hv : v ∈ varietiesOf records) :
    0 < (records.filter (fun r => r.VARIETY == v)).length := by
  rw [List.length_pos_iff_exists_mem]
  obtain ⟨r, hr, he⟩ := List.mem_map.mp ((mem_varietiesOf records v).mp hv)
  exact ⟨r, List.mem_filter.mpr ⟨hr, by simpa using he⟩⟩

theorem catPointOf_overall (fl : List String) (records : List BrixData) (v : String)
    (hv : v ∈ varietiesOf records) :
    (catPointOf fl records v).overall
      = some (toFixed2 (((records.filter (fun r => r.VARIETY == v)).map (·.BRIX)).sum
          / (((records.filter (fun r => r.VARIETY == v)).length : Nat) : ℚ))) := by
  show (if 0 < (records.filter (fun r => r.VARIETY == v)).length then
      some (toFixed2 (((records.filter (fun r => r.VARIETY == v)).map (·.BRIX)).sum
        / ((records.filter (fun r => r.VARIETY == v)).length : ℚ)))
    else none) = _
  rw [if_pos (bucket_length_pos records v hv)]

theorem catChart_filter_eq (fl : List String) (records : List BrixData) :
    ((varietiesOf records).map (catPointOf fl records)).filter (catPointHasData fl)
      = (varietiesOf records).map (catPointOf fl records) := by
  rw [List.filter_eq_self]
  intro p hp
  obtain ⟨v, hv, he⟩ := List.mem_map.mp hp
  subst he
  unfold catPointHasData
  rw [catPointOf_overall fl records v hv]
  rfl

theorem catChart_perm (fl : List String) (records : List BrixData) :
    (catChart fl records).Perm ((varietiesOf records).map (catPointOf fl records)) := by
  unfold catChart
  rw [catChart_filter_eq]
  exact List.perm_insertionSort catLE _

theorem mem_catChart (fl : List String) (records : List BrixData) (p : CatPoint) :
    p ∈ catChart fl records ↔ ∃ v ∈ varietiesOf records, p = catPointOf fl records v := by
  rw [(catChart_perm fl records).mem_iff, List.mem_map]
  constructor
  · rintro ⟨v, hv, he⟩
    exact ⟨v, hv, he.symm⟩
  · rintro ⟨v, hv, he⟩
    exact ⟨v, hv, he.symm⟩

theorem catChart_sorted (fl : List String) (records : List BrixData) :
    (catChart fl records).Sorted catLE :=
  List.sorted_insertionSort catLE _

theorem catChart_map_variety_perm (fl : List String) (records : List BrixData) :
    ((catChart fl records).map (·.variety)).Perm (varietiesOf records) := by
  have h := (catChart_perm fl records).map (·.variety)
  rw [List.map_map] at h
  have h2 : (varietiesOf records).map ((·.variety) ∘ catPointOf fl records)
      = varietiesOf records := by
    conv_rhs => rw [← List.map_id (varietiesOf records)]
    exact List.map_congr_left (fun v _ => rfl)
  rw [h2] at h
  exact h

/-! ## Properties of the Tag Heatmap Aggregator -/

theorem mem_tagsOf (records : List BrixData) (t : Int) :
    t ∈ tagsOf records ↔ (t ≠ 0 ∧ ∃ r ∈ records, r.TAG_NO = t) := by
  unfold tagsOf
  rw [List.mem_dedup, List.mem_map]
  constructor
  · rintro ⟨r, hr, he⟩
    have h2 := List.mem_filter.mp hr
    subst he
    exact ⟨by simpa using h2.2, r, h2.1, rfl⟩
  · rintro ⟨h0, r, hr, he⟩
    exact ⟨r, List.mem_filter.mpr ⟨hr, by simpa using he ▸ h0⟩, he⟩

theorem tagsOf_nodup (records : List BrixData) : (tagsOf records).Nodup :=
  List.nodup_dedup _

theorem tagData_perm (records : List BrixData) :
    (tagData records).Perm ((tagsOf records).map (fun t =>
      let sel := records.filter (fun r => r.TAG_NO == t)
      (⟨t, toFixed2 ((sel.map (·.BRIX)).sum / (sel.length : ℚ))⟩ : TagPoint))) :=
  List.perm_insertionSort tagLE _

theorem mem_tagData (records : List BrixData) (tp : TagPoint) :
    tp ∈ tagData records ↔ ∃ t ∈ tagsOf records,
      tp = ⟨t, toFixed2 (((records.filter (fun r => r.TAG_NO == t)).map (·.BRIX)).sum
        / (((records.filter (fun r => r.TAG_NO == t)).length : Nat) : ℚ))⟩ := by
  rw [(tagData_perm records).mem_iff, List.mem_map]
  constructor
  · rintro ⟨t, ht, he⟩
    exact ⟨t, ht, he.symm⟩
  · rintro ⟨t, ht, he⟩
    exact ⟨t, ht, he.symm⟩

theorem tagData_sorted (records : List BrixData) : (tagData records).Sorted tagLE :=
  List.sorted_insertionSort tagLE _

theorem tagData_map_tag_perm (records : List BrixData) :
    ((tagData records).map (·.tag)).Perm (tagsOf records) := by
  have h := (tagData_perm records).map (·.tag)
  rw [List.map_map] at h
  have h2 : (tagsOf records).map
      ((·.tag) ∘ (fun t => (⟨t, toFixed2 (((records.filter (fun r => r.TAG_NO == t)).map (·.BRIX)).sum
        / ((records.filter (fun r => r.TAG_NO == t)).length : ℚ))⟩ : TagPoint)))
      = tagsOf records := by
    conv_rhs => rw [← List.map_id (tagsOf records)]
    exact List.map_congr_left (fun t _ => rfl)
  rw [h2] at h
  exact h

/-! ## Properties of the Day-of-Year Normalizer -/

theorem mem_trendChart (data : List BrixData) (v : String) (p : TrendPoint) :
    p ∈ trendChart data v ↔ ∃ md ∈ monthDaysOf (data.filter (fun r => r.VARIETY == v)),
      p = trendPointOf (data.filter (fun r => r.VARIETY == v)) md := by
  unfold trendChart
  rw [(List.perm_insertionSort trendLE _).mem_iff, List.mem_map]
  constructor
  · rintro ⟨md, hmd, he⟩
    exact ⟨md, hmd, he.symm⟩
  · rintro ⟨md, hmd, he⟩
    exact ⟨md, hmd, he.symm⟩

theorem trendChart_sorted (data : List BrixData) (v : String) :
    (trendChart data v).Sorted trendLE :=
  List.sorted_insertionSort trendLE _

theorem trendPointOf_years_isSome (rs : List BrixData) (md : Nat × Nat) (y : Nat) :
    ((trendPointOf rs md).years y).isSome
      ↔ ∃ r ∈ rs, r.MEASURE_DATE.year = y ∧ r.MEASURE_DATE.month = md.1
          ∧ r.MEASURE_DATE.day = md.2 := by
  show (if 0 < (rs.filter _).length then some _ else none).isSome ↔ _
  by_cases hl : 0 < (rs.filter (fun r =>
      r.MEASURE_DATE.year == y && r.MEASURE_DATE.month == md.1
        && r.MEASURE_DATE.day == md.2)).length
  · rw [if_pos hl]
    simp only [Option.isSome_some, true_iff]
    rw [List.length_pos_iff_exists_mem] at hl
    obtain ⟨r, hr⟩ := hl
    have h2 := List.mem_filter.mp hr
    refine ⟨r, h2.1, ?_⟩
    have := h2.2
    simp only [Bool.and_eq_true, beq_iff_eq] at this
    exact ⟨this.1.1, this.1.2, this.2⟩
  · rw [if_neg hl]
    simp only [Option.isSome_none, Bool.false_eq_true, false_iff]
    rintro ⟨r, hr, h1, h2, h3⟩
    apply hl
    rw [List.length_pos_iff_exists_mem]
    exact ⟨r, List.mem_filter.mpr ⟨hr, by simp [h1, h2, h3]⟩⟩

/-! ## Concrete example data for the testable properties -/

/-- The 2023-12-31 record of the year-reset example. -/
def recDec31 : BrixData := ⟨"F", "s1", "V", 1, 10, ⟨2023, 12, 31⟩⟩

/-- The 2024-01-01 record of the year-reset example. -/
def recJan1 : BrixData := ⟨"F", "s2", "V", 1, 8, ⟨2024, 1, 1⟩⟩

/-- Farm F's day-1 record of the gap-omission example. -/
def recF1 : BrixData := ⟨"F", "a", "V", 1, 10, ⟨2024, 6, 1⟩⟩

/-- Farm F's day-3 record of the gap-omission example. -/
def recF3 : BrixData := ⟨"F", "b", "V", 1, 12, ⟨2024, 6, 3⟩⟩

/-- Farm G's day-1 record of the gap-omission example. -/
def recG1 : BrixData := ⟨"G", "c", "V", 1, 10, ⟨2024, 6, 1⟩⟩

/-- Farm G's day-2 record of the gap-omission example. -/
def recG2 : BrixData := ⟨"G", "d", "V", 1, 11, ⟨2024, 6, 2⟩⟩

/-- Farm G's day-3 record of the gap-omission example. -/
def recG3 : BrixData := ⟨"G", "e", "V", 1, 13, ⟨2024, 6, 3⟩⟩

/-- First variety-A record of the category example. -/
def recA9 : BrixData := ⟨"X", "a", "A", 1, 9, ⟨2024, 6, 1⟩⟩

/-- Second variety-A record of the category example. -/
def recA11 : BrixData := ⟨"X", "b", "A", 1, 11, ⟨2024, 6, 1⟩⟩

/-- The variety-B record of the category example. -/
def recB10 : BrixData := ⟨"X", "c", "B", 1, 10, ⟨2024, 6, 1⟩⟩

/-- The 2023-03-01 record of the day-of-year example. -/
def recMar1of23 : BrixData := ⟨"X", "a", "V", 1, 10, ⟨2023, 3, 1⟩⟩

/-- The 2024-03-01 record of the day-of-year example. -/
def recMar1of24 : BrixData := ⟨"X", "b", "V", 1, 12, ⟨2024, 3, 1⟩⟩

/-- The 2024-02-29 record of the day-of-year example. -/
def recFeb29of24 : BrixData := ⟨"X", "c", "V", 1, 9, ⟨2024, 2, 29⟩⟩

/-- The 2023-03-02 record of the day-of-year example. -/
def recMar2of23 : BrixData := ⟨"X", "d", "V", 1, 11, ⟨2023, 3, 2⟩⟩

/-- An untagged record (tag 0) of the tag-exclusion example. -/
def recTag0 : BrixData := ⟨"X", "a", "V", 0, 7, ⟨2024, 6, 1⟩⟩

/-- A tag-2 record of the tag-exclusion example. -/
def recTag2 : BrixData := ⟨"X", "b", "V", 2, 10, ⟨2024, 6, 1⟩⟩

/-- A single record on the second day of a two-day window, so the first day
has no overall value. -/
def recJun2 : BrixData := ⟨"F", "a", "V", 1, 10, ⟨2024, 6, 2⟩⟩

/-- A parsed CSV row whose BRIX cell parsed to positive infinity (for example
the cell text `Infinity` or `1e999`). -/
def rowInf : ParsedRow := ⟨true, some ⟨2024, 1, 1⟩, .posInf, "F", "V", 1⟩

/-- A parsed CSV row whose BRIX cell parsed to NaN. -/
def rowNaN : ParsedRow := ⟨true, some ⟨2024, 1, 1⟩, .nan, "F", "V", 1⟩

/-! ## The claims -/

/-- Claim C1: walking the sorted distinct dates resets every cumulative
tracker (overall sum/count and every farm's sum/count) to zero whenever the
current date's year differs from the previously processed date's year,
before folding in that day's totals — a step whose date's year differs from
the state's tracked year behaves exactly like the step from the pristine
state; and on the records 10.0 at 2023-12-31 and 8.0 at 2024-01-01 the
emitted cumulative overall average on 2024-01-01 is 8.0, not 9.0. -/
theorem claim_C1_year_reset (fl : List String) (aggOf : Date → DailyAgg)
    (st : CumState) (d : Date) (h : st.currentYear ≠ some d.year) :
    stepDate fl aggOf st d = stepDate fl aggOf initCumState d ∧
    (processTimeSeries [] [recDec31, recJan1] ⟨2023, 12, 31⟩ ⟨2024, 1, 1⟩).map
        (fun p => (p.date, p.overall))
      = [(⟨2023, 12, 31⟩, some 10), (⟨2024, 1, 1⟩, some 8)] :=
  ⟨stepDate_reset fl aggOf st d h, by with_unfolding_all rfl⟩

/-- Witness for C1 at a concrete state carrying 2023 data and the date
2024-01-01. -/
theorem claim_C1_year_reset_witness :
    stepDate [] (dailyAggOf [] [recDec31, recJan1])
        ⟨some 2023, 10, 1, fun _ => ⟨0, 0⟩⟩ ⟨2024, 1, 1⟩
      = stepDate [] (dailyAggOf [] [recDec31, recJan1]) initCumState ⟨2024, 1, 1⟩ :=
  (claim_C1_year_reset [] (dailyAggOf [] [recDec31, recJan1])
    ⟨some 2023, 10, 1, fun _ => ⟨0, 0⟩⟩ ⟨2024, 1, 1⟩ (by simp)).1

/-- Claim C9 (code bug): the spec requires every non-finite sweetness value
(NaN or infinite) to be dropped before entering the Record Store, but the
validation only tests `isNaN`: a row whose BRIX cell parses to positive
infinity is kept and enters the store, while a NaN row is dropped. -/
theorem claim_C9_nonfinite_kept :
    rowKept rowInf = true ∧ rowInf.brix.isFinite = false ∧
    formattedRows [rowInf] = [rowInf] ∧ rowKept rowNaN = false :=
  ⟨rfl, rfl, rfl, rfl⟩

/-- Claim C10: every point the Category Aggregator emits carries the overall
series value — every variety bucket is created by a contributing record, so
the overall count is positive and the emission filter never removes a
bucket; by contrast a time-series point can lack the overall key, as on the
first day of the two-day window with data only on the second day. -/
theorem claim_C10_category_overall_present (fl : List String) (records : List BrixData) :
    (∀ p ∈ catChart fl records, (p.overall).isSome) ∧
    (processTimeSeries [] [recJun2] ⟨2024, 6, 1⟩ ⟨2024, 6, 2⟩).map (fun p => p.overall)
      = [none, some 10] := by
  constructor
  · intro p hp
    obtain ⟨v, hv, he⟩ := (mem_catChart fl records p).mp hp
    subst he
    rw [catPointOf_overall fl records v hv]
    rfl
  · with_unfolding_all rfl

/-- Claim C2: for every selected farm and every emitted point, the farm's
series value is present exactly when the farm has a measurement on that
point's day; on a same-year day without data for the farm, the farm's
cumulative tracker is left unchanged; and in the three-day example the farm
with data on days 1 and 3 is keyed on days 1 and 3 only, while the overall
key is present on all three days. -/
theorem claim_C2_farm_gap_omission (fl : List String) (records : List BrixData)
    (s e : Date) (f : String) (hf : f ∈ fl) :
    (∀ p ∈ processTimeSeries fl records s e,
        ((p.farms f).isSome ↔ ∃ r ∈ records, r.FARMLAND = f ∧ r.MEASURE_DATE = p.date)) ∧
    (∀ (st : CumState) (d : Date), st.currentYear = some d.year →
        (dailyAggOf fl records d).farmCount f = 0 →
        (stepDate fl (dailyAggOf fl records) st d).1.farmStats f = st.farmStats f) ∧
    (processTimeSeries ["F"] [recF1, recF3, recG1, recG2, recG3]
        ⟨2024, 6, 1⟩ ⟨2024, 6, 3⟩).map (fun p => p.farms "F")
      = [some 10, none, some 11] ∧
    (processTimeSeries ["F"] [recF1, recF3, recG1, recG2, recG3]
        ⟨2024, 6, 1⟩ ⟨2024, 6, 3⟩).map (fun p => p.overall)
      = [some 10, some (1033/100), some (56/5)] := by
  refine ⟨?_, ?_, by with_unfolding_all rfl, by with_unfolding_all rfl⟩
  · intro p hp
    unfold processTimeSeries at hp
    by_cases hw : s.toRD ≤ e.toRD
    · rw [if_pos hw] at hp
      obtain ⟨-, hfarm⟩ := mem_windowLoopGo _ _ _ _ p hp
      rw [hfarm f, if_pos (by simpa using hf), computedMapOf_farms_isSome]
      simp [hf]
    · rw [if_neg hw] at hp
      cases hp
  · intro st d hy hc
    exact stepDate_farmStats_preserved fl (dailyAggOf fl records) st d f hy hc

/-- Witness for C2 with the one selected farm of the three-day example. -/
theorem claim_C2_farm_gap_omission_witness :
    (processTimeSeries ["F"] [recF1, recF3, recG1, recG2, recG3]
        ⟨2024, 6, 1⟩ ⟨2024, 6, 3⟩).map (fun p => p.farms "F")
      = [some 10, none, some 11] :=
  (claim_C2_farm_gap_omission ["F"] [recF1, recF3, recG1, recG2, recG3]
    ⟨2024, 6, 1⟩ ⟨2024, 6, 3⟩ "F" (by simp)).2.2.1

/-- Claim C3: an inverted window (`windowEnd < windowStart`) yields the empty
sequence rather than an error, and a valid window yields a dense output with
exactly one point per calendar day of the inclusive window, in ascending
date order, each point keyed by its day. -/
theorem claim_C3_window_shape (fl : List String) (records : List BrixData)
    (s e : Date) (hs : s.Valid) :
    (e.toRD < s.toRD → processTimeSeries fl records s e = []) ∧
    (s.toRD ≤ e.toRD →
      (processTimeSeries fl records s e).map (·.date)
          = (List.range (e.toRD - s.toRD + 1)).map (fun i => Date.next^[i] s) ∧
      (processTimeSeries fl records s e).length = e.toRD - s.toRD + 1 ∧
      (processTimeSeries fl records s e).Pairwise
        (fun p q => p.date.toRD < q.date.toRD)) := by
  constructor
  · intro hlt
    unfold processTimeSeries
    rw [if_neg (by omega)]
  · intro hle
    have hmap : (processTimeSeries fl records s e).map (·.date)
        = (List.range (e.toRD - s.toRD + 1)).map (fun i => Date.next^[i] s) := by
      unfold processTimeSeries
      rw [if_pos hle, windowLoopGo_map_date]
      unfold windowDays
      rw [if_pos hle]
    refine ⟨hmap, ?_, ?_⟩
    · have := congrArg List.length hmap
      simpa using this
    · have hpd : ((processTimeSeries fl records s e).map (·.date)).Pairwise
          (fun a b : Date => a.toRD < b.toRD) := by
        rw [hmap, List.pairwise_map]
        apply (List.pairwise_lt_range _).imp
        intro i j hij
        rw [Date.toRD_iterate_next s hs i, Date.toRD_iterate_next s hs j]
        omega
      rw [List.pairwise_map] at hpd
      exact hpd

/-- Witness for C3: the empty result of the inverted two-day window. -/
theorem claim_C3_window_shape_witness :
    processTimeSeries [] [recJun2] ⟨2024, 6, 3⟩ ⟨2024, 6, 1⟩ = [] :=
  (claim_C3_window_shape [] [recJun2] ⟨2024, 6, 3⟩ ⟨2024, 6, 1⟩ (by decide)).1
    (by decide)

/-- Claim C4: a quotient of exactly 9.005 is emitted as 9.01 (ECMAScript
`toFixed` rounds the tie up); every emitted average — overall cumulative,
per-farm cumulative, categorical, tag — is the rounding of the quotient of
full-precision trackers at the moment of emission, and a day-of-year value
is the rounding of an exact bucket mean; the running sums and counts
themselves accumulate the exact daily totals, so rounding never feeds back
into later cumulative values. -/
theorem claim_C4_rounding (fl : List String) (aggOf : Date → DailyAgg)
    (st : CumState) (d : Date)
    (hy : st.currentYear = some d.year) (hc : 0 < (aggOf d).daily_count) :
    toFixed2 (9005/1000) = 901/100 ∧
    (stepDate fl aggOf st d).1.cumulativeSum = st.cumulativeSum + (aggOf d).daily_total ∧
    (stepDate fl aggOf st d).1.cumulativeCount
      = st.cumulativeCount + (aggOf d).daily_count ∧
    (stepDate fl aggOf st d).2.overall
      = some (toFixed2 ((st.cumulativeSum + (aggOf d).daily_total)
          / ((st.cumulativeCount + (aggOf d).daily_count : Nat) : ℚ))) ∧
    (∀ (agg : DailyAgg) (acc : (String → FarmStat) × (String → Option ℚ)) (farm : String),
        0 < agg.farmCount farm →
        (farmFold agg acc farm).2 farm
          = some (toFixed2 (((acc.1 farm).sum + agg.farmTotal farm)
              / (((acc.1 farm).count + agg.farmCount farm : Nat) : ℚ)))) ∧
    (∀ (fl' : List String) (rs : List BrixData) (p : CatPoint), p ∈ catChart fl' rs →
        p.overall = some (toFixed2 ((((rs.filter (fun r => r.VARIETY == p.variety)).map (·.BRIX)).sum)
          / (((rs.filter (fun r => r.VARIETY == p.variety)).length : Nat) : ℚ)))) ∧
    (∀ (rs : List BrixData) (tp : TagPoint), tp ∈ tagData rs →
        tp.avg = toFixed2 ((((rs.filter (fun r => r.TAG_NO == tp.tag)).map (·.BRIX)).sum)
          / (((rs.filter (fun r => r.TAG_NO == tp.tag)).length : Nat) : ℚ))) ∧
    (∀ (data : List BrixData) (v : String) (p : TrendPoint) (y : Nat) (q : ℚ),
        p ∈ trendChart data v → p.years y = some q →
        ∃ md : Nat × Nat,
          q = toFixed2 (((((data.filter (fun r => r.VARIETY == v)).filter (fun r =>
                r.MEASURE_DATE.year == y && r.MEASURE_DATE.month == md.1
                  && r.MEASURE_DATE.day == md.2)).map (·.BRIX)).sum)
            / ((((data.filter (fun r => r.VARIETY == v)).filter (fun r =>
                r.MEASURE_DATE.year == y && r.MEASURE_DATE.month == md.1
                  && r.MEASURE_DATE.day == md.2)).length : Nat) : ℚ))) := by
  obtain ⟨h1, h2, h3⟩ := stepDate_full_precision fl aggOf st d hy hc
  refine ⟨by with_unfolding_all rfl, h1, h2, h3, ?_, ?_, ?_, ?_⟩
  · intro agg acc farm hcf
    exact farmFold_emit_value agg acc farm hcf
  · intro fl' rs p hp
    obtain ⟨v, hv, he⟩ := (mem_catChart fl' rs p).mp hp
    subst he
    exact catPointOf_overall fl' rs v hv
  · intro rs tp hp
    obtain ⟨t, ht, he⟩ := (mem_tagData rs tp).mp hp
    subst he
    rfl
  · intro data v p y q hp hys
    obtain ⟨md, hmd, he⟩ := (mem_trendChart data v p).mp hp
    subst he
    refine ⟨md, ?_⟩
    rw [show (trendPointOf (data.filter (fun r => r.VARIETY == v)) md).years y
      = (if 0 < ((data.filter (fun r => r.VARIETY == v)).filter (fun r =>
            r.MEASURE_DATE.year == y && r.MEASURE_DATE.month == md.1
              && r.MEASURE_DATE.day == md.2)).length
         then some (toFixed2 (((((data.filter (fun r => r.VARIETY == v)).filter (fun r =>
               r.MEASURE_DATE.year == y && r.MEASURE_DATE.month == md.1
                 && r.MEASURE_DATE.day == md.2)).map (·.BRIX)).sum)
             / ((((data.filter (fun r => r.VARIETY == v)).filter (fun r =>
               r.MEASURE_DATE.year == y && r.MEASURE_DATE.month == md.1
                 && r.MEASURE_DATE.day == md.2)).length : Nat) : ℚ)))
         else none) from rfl] at hys
    by_cases hl : 0 < ((data.filter (fun r => r.VARIETY == v)).filter (fun r =>
        r.MEASURE_DATE.year == y && r.MEASURE_DATE.month == md.1
          && r.MEASURE_DATE.day == md.2)).length
    · rw [if_pos hl] at hys
      exact (Option.some_inj.mp hys).symm
    · rw [if_neg hl] at hys
      cases hys

/-- Witness for C4 at the singleton record list of 2024-01-01 and the state
already tracking year 2024. -/
theorem claim_C4_rounding_witness :
    toFixed2 (9005/1000) = 901/100 :=
  (claim_C4_rounding [] (dailyAggOf [] [recJan1])
    ⟨some 2024, 0, 0, fun _ => ⟨0, 0⟩⟩ ⟨2024, 1, 1⟩ rfl (by decide)).1

/-- Claim C5: the Category Aggregator emits exactly one point per distinct
variety of the filtered subset (no duplicates, and a label appears exactly
when some record carries it), each point's overall value is the rounded
arithmetic mean of the bucket, the output is sorted ascending by the
variety label, and on the A/A/B example it is exactly the two points with
overall 10.0 each. -/
theorem claim_C5_category_aggregation (fl : List String) (records : List BrixData) :
    ((catChart fl records).map (·.variety)).Nodup ∧
    (∀ v : String, v ∈ (catChart fl records).map (·.variety)
        ↔ v ∈ records.map (·.VARIETY)) ∧
    (catChart fl records).Sorted catLE ∧
    (∀ p ∈ catChart fl records,
        p.overall = some (toFixed2 ((((records.filter (fun r => r.VARIETY == p.variety)).map (·.BRIX)).sum)
          / (((records.filter (fun r => r.VARIETY == p.variety)).length : Nat) : ℚ)))) ∧
    (catChart [] [recA9, recA11, recB10]).map (fun p => (p.variety, p.overall))
      = [("A", some 10), ("B", some 10)] := by
  refine ⟨?_, ?_, catChart_sorted fl records, ?_, by with_unfolding_all rfl⟩
  · exact ((catChart_map_variety_perm fl records).nodup_iff).mpr (varietiesOf_nodup records)
  · intro v
    rw [(catChart_map_variety_perm fl records).mem_iff, mem_varietiesOf]
  · intro p hp
    obtain ⟨v, hv, he⟩ := (mem_catChart fl records p).mp hp
    subst he
    exact catPointOf_overall fl records v hv

/-- Claim C6: the Day-of-Year Normalizer re-keys each per-year daily average
onto a year-agnostic month-day label with the leap reference-year timestamp,
a year's key is present on a label exactly when that year has data on that
month-day, the sequence is sorted ascending by the reference-year timestamp,
and on the example the 2023 and 2024 values of March 1st share the single
label 03-01, ordered after 02-29 and before 03-02, with absent years
omitted. -/
theorem claim_C6_day_of_year (data : List BrixData) (v : String) :
    (trendChart data v).Sorted trendLE ∧
    (∀ p ∈ trendChart data v, ∃ md : Nat × Nat,
        p.name = pad2 md.1 ++ "-" ++ pad2 md.2 ∧
        p.sortValue = Date.toRD ⟨2024, md.1, md.2⟩ ∧
        ∀ y : Nat, ((p.years y).isSome
          ↔ ∃ r ∈ data, r.VARIETY = v ∧ r.MEASURE_DATE.year = y ∧
              r.MEASURE_DATE.month = md.1 ∧ r.MEASURE_DATE.day = md.2)) ∧
    (trendChart [recMar1of23, recMar1of24, recFeb29of24, recMar2of23] "V").map
        (fun p => (p.name, p.years 2023, p.years 2024))
      = [("02-29", none, some 9), ("03-01", some 10, some 12), ("03-02", some 11, none)] := by
  refine ⟨trendChart_sorted data v, ?_, by with_unfolding_all rfl⟩
  intro p hp
  obtain ⟨md, hmd, he⟩ := (mem_trendChart data v p).mp hp
  subst he
  refine ⟨md, rfl, rfl, ?_⟩
  intro y
  rw [trendPointOf_years_isSome]
  constructor
  · rintro ⟨r, hr, h1, h2, h3⟩
    have h4 := List.mem_filter.mp hr
    exact ⟨r, h4.1, by simpa using h4.2, h1, h2, h3⟩
  · rintro ⟨r, hr, h0, h1, h2, h3⟩
    exact ⟨r, List.mem_filter.mpr ⟨hr, by simpa using h0⟩, h1, h2, h3⟩

/-- Claim C7: the backward seed scan accepts only dates strictly before the
window start that lie in the window start's calendar year and have a
computed overall value, and among those it returns the most recent; in
particular a window starting exactly on January 1st gets no seed, so it
never carries a value from December 31st of the prior year. -/
theorem claim_C7_seed_scan (fl : List String) (records : List BrixData) (s : Date)
    (hvr : ∀ r ∈ records, r.MEASURE_DATE.Valid) :
    (∀ (v : ℚ) (d : Date),
        seedScan (computedMapOf fl records) s (sortedDatesOf records) = some (v, d) →
        d ∈ sortedDatesOf records ∧ d.toRD < s.toRD ∧ d.year = s.year ∧
          (computedMapOf fl records d).bind (·.overall) = some v ∧
          ∀ d' ∈ sortedDatesOf records, d'.toRD < s.toRD → d'.year = s.year →
            ((computedMapOf fl records d').bind (·.overall)).isSome → d'.toRD ≤ d.toRD) ∧
    (s.month = 1 → s.day = 1 →
        seedScan (computedMapOf fl records) s (sortedDatesOf records) = none) := by
  constructor
  · intro v d h
    have hrev : ((sortedDatesOf records).reverse).Pairwise
        (fun a b : Date => b.toRD ≤ a.toRD) :=
      List.pairwise_reverse.mpr (sortedDatesOf_sorted records)
    obtain ⟨hm, hlt, hy, ho, hmax⟩ :=
      seedGo_seedCheck_spec (computedMapOf fl records) s
        ((sortedDatesOf records).reverse) hrev v d h
    refine ⟨List.mem_reverse.mp hm, hlt, hy, ho, ?_⟩
    intro d' hd' h1 h2 h3
    exact hmax d' (List.mem_reverse.mpr hd') h1 h2 h3
  · intro h1 h2
    apply seedScan_jan1_none _ _ _ h1 h2
    intro d hd
    obtain ⟨r, hr, he⟩ := (mem_sortedDatesOf records d).mp hd
    exact he ▸ hvr r hr

/-- Witness for C7: a window starting on 2024-01-01 over the two-record
store gets no seed. -/
theorem claim_C7_seed_scan_witness :
    seedScan (computedMapOf [] [recDec31, recJan1]) ⟨2024, 1, 1⟩
        (sortedDatesOf [recDec31, recJan1]) = none :=
  (claim_C7_seed_scan [] [recDec31, recJan1] ⟨2024, 1, 1⟩ (by decide)).2 rfl rfl

/-- Claim C8: the Tag Heatmap Aggregator never includes tag 0: its output has
one entry per distinct non-zero tag of the filtered subset (no duplicates,
and a tag appears exactly when it is non-zero and some record carries it),
each holding the rounded plain average of that tag's sweetness values,
sorted ascending by tag number; on the example with an untagged record only
the tag-2 entry appears. -/
theorem claim_C8_tag_exclusion (records : List BrixData) :
    (∀ tp ∈ tagData records, tp.tag ≠ 0) ∧
    ((tagData records).map (·.tag)).Nodup ∧
    (∀ t : Int, t ∈ (tagData records).map (·.tag)
        ↔ (t ≠ 0 ∧ ∃ r ∈ records, r.TAG_NO = t)) ∧
    (tagData records).Sorted tagLE ∧
    (∀ tp ∈ tagData records,
        tp.avg = toFixed2 ((((records.filter (fun r => r.TAG_NO == tp.tag)).map (·.BRIX)).sum)
          / (((records.filter (fun r => r.TAG_NO == tp.tag)).length : Nat) : ℚ))) ∧
    (tagData [recTag0, recTag2]).map (fun p => (p.tag, p.avg)) = [(2, 10)] := by
  refine ⟨?_, ?_, ?_, tagData_sorted records, ?_, by with_unfolding_all rfl⟩
  · intro tp hp
    obtain ⟨t, ht, he⟩ := (mem_tagData records tp).mp hp
    subst he
    exact ((mem_tagsOf records t).mp ht).1
  · exact ((tagData_map_tag_perm records).nodup_iff).mpr (tagsOf_nodup records)
  · intro t
    rw [(tagData_map_tag_perm records).mem_iff, mem_tagsOf]
  · intro tp hp
    obtain ⟨t, ht, he⟩ := (mem_tagData records tp).mp hp
    subst he
    rfl
